import Mathlib

/-!
Shallow embedding of `src/node/services/files.js` (the watch registry,
change-event translation, directory listing, stat snapshotting and the
home-directory path resolver), together with theorems settling the frozen
claims about that module.

Paths are modelled as lists of characters (`PathStr`), JavaScript
`undefined`-able record fields as `Option`, thrown exceptions as `Except`,
and the side-effecting `log(...)` calls as an explicit list of produced
log entries.  Filesystem syscalls (`fs.readdir`, `fs.lstat`, `fs.stat`,
`fs.readFileSync`) and `JSON.parse` are inputs of the embedded functions,
passed as oracle functions, so every definition stays executable.
-/

/-- A JavaScript string holding a filesystem path, modelled as its
character sequence. -/
abbrev PathStr := List Char

/-- Split a character list at every occurrence of the separator `c`
(the semantics of `String.prototype.split` used implicitly by node's
path normalization). `splitOnChar c l` always returns a non-empty list,
and the separators are not part of the pieces. -/
def splitOnChar (c : Char) : PathStr → List PathStr
  | [] => [[]]
  | x :: xs =>
    if x = c then [] :: splitOnChar c xs
    else
      match splitOnChar c xs with
      | [] => [[x]]
      | s :: ss => (x :: s) :: ss

/-- Join pieces with the separator `c`; left inverse of `splitOnChar c`. -/
def intercalateChar (c : Char) : List PathStr → PathStr
  | [] => []
  | [s] => s
  | s :: ss => s ++ c :: intercalateChar c ss

/-- One step of node's `normalizeString` segment processing: skip `.`,
resolve `..` against the already-accepted segments (`..` above the root of
a relative path is kept; above the root of an absolute path it is
dropped), and accept any other segment. -/
def normStep (isAbs : Bool) (acc : List PathStr) (seg : PathStr) : List PathStr :=
  if seg = ['.'] then acc
  else if seg = ['.', '.'] then
    match acc.getLast? with
    | some t => if t = ['.', '.'] then acc ++ [seg] else acc.dropLast
    | none => if isAbs then acc else acc ++ [seg]
  else acc ++ [seg]

/-- `path.posix.normalize`: collapse repeated separators, resolve `.` and
`..` segments, preserve a trailing separator, and map the empty relative
result to `.`. -/
def posixNormalize (p : PathStr) : PathStr :=
  if p = [] then ['.']
  else
    let isAbs : Bool := decide (p.head? = some '/')
    let trailing : Bool := decide (p.getLast? = some '/')
    let segs := (splitOnChar '/' p).filter (fun s => decide (s ≠ []))
    let out := segs.foldl (normStep isAbs) []
    let core := intercalateChar '/' out
    let core := if core = [] && !isAbs then ['.'] else core
    let core := if core ≠ [] && trailing then core ++ ['/'] else core
    if isAbs then '/' :: core else core

/-- `path.posix.join`: drop empty arguments, join the rest with `/`, and
normalize; the empty join is `.`. -/
def posixJoin (parts : List PathStr) : PathStr :=
  let joined := intercalateChar '/' (parts.filter (fun s => decide (s ≠ [])))
  if joined = [] then ['.'] else posixNormalize joined

/-- The `%HOME%` placeholder token recognised by `resolveHomeDirectory`. -/
def tokHOME : PathStr := ['%', 'H', 'O', 'M', 'E', '%']

/-- `str.replace(/^tok/, rep)`: substitute `rep` for the prefix `tok`
when present, otherwise leave the string unchanged. -/
def replaceStart (tok rep s : PathStr) : PathStr :=
  if List.isPrefixOf tok s then rep ++ s.drop tok.length else s

/-- `resolveHomeDirectory(str)` from the source: when the string starts
with `~` or `%HOME%`, apply both anchored replacements (tilde first, then
`%HOME%`) with the OS home directory; otherwise pass through unchanged.
`home` stands for the value of `os.homedir()`. -/
def resolveHomeDirectory (home s : PathStr) : PathStr :=
  if List.isPrefixOf ['~'] s || List.isPrefixOf tokHOME s then
    replaceStart tokHOME home (replaceStart ['~'] home s)
  else s

/-- `getWithHomeDirectoryShortName(str)` from the source: when the string
starts with the OS home directory, replace that prefix with `~` via
`path.join('~', str.substr(home.length))`; otherwise pass through. -/
def getWithHomeDirectoryShortName (home s : PathStr) : PathStr :=
  if List.isPrefixOf home s then posixJoin [['~'], s.drop home.length] else s

/-- result of `path.posix.parse`: root, directory, base name, extension
and extension-less name of a path. -/
structure ParsedPath where
  root : PathStr := []
  dir : PathStr := []
  base : PathStr := []
  ext : PathStr := []
  name : PathStr := []
  deriving Repr, DecidableEq

/-- Strip the trailing separators of a path (used by `posixParse`). -/
def dropTrailingSlashes (p : PathStr) : PathStr :=
  (p.reverse.dropWhile (fun c => c = '/')).reverse

/-- `path.posix.parse`: split a path into root, dir, base, ext and name.
The base is the last segment ignoring trailing separators; the extension
starts at the last dot of the base unless that dot is its first character
or the base is `..`. -/
def posixParse (p : PathStr) : ParsedPath :=
  if p = [] then {}
  else
    let isAbs : Bool := decide (p.head? = some '/')
    let root : PathStr := if isAbs then ['/'] else []
    let q := dropTrailingSlashes p
    if q = [] then { root := root, dir := root }
    else
      let revBase := q.reverse.takeWhile (fun c => c ≠ '/')
      let base := revBase.reverse
      let before := q.take (q.length - base.length - 1)
      let dir :=
        if q.length = base.length then ([] : PathStr)
        else if before = [] then root
        else before
      let revAfterDot := base.reverse.takeWhile (fun c => c ≠ '.')
      let dotIdx := base.length - revAfterDot.length - 1
      if revAfterDot.length = base.length ∨ dotIdx = 0 ∨ base = ['.', '.'] then
        { root := root, dir := dir, base := base, ext := [], name := base }
      else
        { root := root, dir := dir, base := base,
          ext := base.drop dotIdx, name := base.take dotIdx }

/-- One entry of the module's `log('level', ...)` output: the level, the
fixed message of the call site, and the path/filename argument. -/
structure LogEntry where
  level : String
  message : String
  subject : PathStr
  deriving Repr, DecidableEq

/-- An error thrown by a filesystem syscall (`fs.readdir`, `fs.lstat`,
`fs.stat`, `fs.readFileSync`); the variant is irrelevant to the module,
which only catches and propagates. -/
inductive FsError
  | enoent
  | eacces
  | eperm
  deriving Repr, DecidableEq

/-- A JavaScript runtime error raised by the module's own code. -/
inductive JsError
  | typeError
  deriving Repr, DecidableEq

/-- A stat result / stat snapshot object.  `Option` fields model
JavaScript properties that may be absent (`undefined`): the three
capability fields hold `some b` when the raw object exposes an
`isDirectory`/`isFile`/`isSymbolicLink` indicator resolving (directly or
as a method, via `_.result`) to `b`, and `none` when the property is
absent.  `path` and the five parse fields are attached later by
`readDirectory` / `getFileSystemChangeToken`. -/
structure Stats where
  isDirectory : Option Bool := none
  isFile : Option Bool := none
  isSymbolicLink : Option Bool := none
  path : Option PathStr := none
  root : Option PathStr := none
  dir : Option PathStr := none
  base : Option PathStr := none
  ext : Option PathStr := none
  name : Option PathStr := none
  deriving Repr, DecidableEq

/-- `normalizeStats` on a non-null stats object: materialize the three
capability booleans with `_.result(stats, key, false)`, so a missing or
undefined indicator becomes the concrete `false`. -/
def normalizeStats (s : Stats) : Stats :=
  { s with
    isDirectory := some (s.isDirectory.getD false),
    isFile := some (s.isFile.getD false),
    isSymbolicLink := some (s.isSymbolicLink.getD false) }

/-- `normalizeStats` as written in the source, which tolerates a null
argument: `if (stats) {...} return stats`. -/
def normalizeStatsOpt : Option Stats → Option Stats
  | none => none
  | some s => some (normalizeStats s)

/-- `_.assign(stats, path.posix.parse(p))`: copy the five parse fields
onto the stats object. -/
def assignParse (s : Stats) (p : PathStr) : Stats :=
  let pp := posixParse p
  { s with
    root := some pp.root, dir := some pp.dir, base := some pp.base,
    ext := some pp.ext, name := some pp.name }

/-- A stat snapshot is fully populated when all of its fields carry
concrete values: the three materialized booleans, the joined path, and
the five parsed name components. -/
def Stats.populated (s : Stats) : Bool :=
  s.isDirectory.isSome && s.isFile.isSome && s.isSymbolicLink.isSome &&
    s.path.isSome && s.root.isSome && s.dir.isSome && s.base.isSome &&
    s.ext.isSome && s.name.isSome

/-- `getJSONFileSafeSync(filePath)`: read the file (oracle `readF`,
`none` models a thrown read error) and parse it (oracle `parseF`, `none`
models a `JSON.parse` exception).  An unreadable file yields `null` with
deliberately no warning; readable but invalid JSON yields `null` and a
warning; otherwise the parsed value is returned. -/
def getJSONFileSafeSync {α : Type} (readF : PathStr → Option String)
    (parseF : String → Option α) (filePath : PathStr) :
    Option α × List LogEntry :=
  match readF filePath with
  | none => (none, [])
  | some contents =>
    match parseF contents with
    | none => (none, [⟨"warn", "is not valid JSON", filePath⟩])
    | some v => (some v, [])

/-- `getStats(filename)`: resolve the home placeholder, try `lstat`;
on failure log a warning and fall back to `stat`; normalize whichever
result succeeded.  `lstatF`/`statF` are the syscall oracles. -/
def getStats (home : PathStr) (lstatF statF : PathStr → Except FsError Stats)
    (filename : PathStr) : Except FsError Stats × List LogEntry :=
  let fn := resolveHomeDirectory home filename
  match lstatF fn with
  | Except.ok st => (Except.ok (normalizeStats st), [])
  | Except.error _ =>
    match statF fn with
    | Except.ok st =>
        (Except.ok (normalizeStats st), [⟨"warn", "lstat failed", fn⟩])
    | Except.error e2 =>
        (Except.error e2, [⟨"warn", "lstat failed", fn⟩])

/-- The per-entry callback of `readDirectory`'s `.map(...)`: join the
entry name onto the directory path, resolve its stats, attach the full
path and parsed components, and on stat failure log a warning and yield
`undefined` (to be compacted away). -/
def listEntryStep (home : PathStr) (lstatF statF : PathStr → Except FsError Stats)
    (dp filename : PathStr) : Option Stats × List LogEntry :=
  let fullPath := posixJoin [dp, filename]
  match getStats home lstatF statF fullPath with
  | (Except.ok st, lg) =>
      (some (assignParse { st with path := some fullPath } fullPath), lg)
  | (Except.error _, lg) =>
      ((none : Option Stats), lg ++ [⟨"warn", "getStats failed", filename⟩])

/-- `readDirectory(dirPath)`: resolve the home placeholder, enumerate
the directory (oracle `enumF`), and map every entry through
`listEntryStep`; the final `_.compact` drops the entries whose stat
resolution failed. -/
def readDirectory (home : PathStr)
    (enumF : PathStr → Except FsError (List PathStr))
    (lstatF statF : PathStr → Except FsError Stats)
    (dirPath : PathStr) :
    Except FsError (List Stats) × List LogEntry :=
  let dp := resolveHomeDirectory home dirPath
  match enumF dp with
  | Except.error e => (Except.error e, [])
  | Except.ok names =>
    let pairs := names.map (listEntryStep home lstatF statF dp)
    (Except.ok ((pairs.map Prod.fst).reduceOption), (pairs.map Prod.snd).flatten)

/-- Concrete directory-enumeration oracle for the listing witness: a
directory holding the three entries `a`, `b`, `c`. -/
def demoEnum : PathStr → Except FsError (List PathStr) :=
  fun _ => Except.ok [['a'], ['b'], ['c']]

/-- Concrete `lstat` oracle for the listing witness: fails on `/d/b`. -/
def demoLstat : PathStr → Except FsError Stats :=
  fun p => if p = "/d/b".data then Except.error FsError.enoent
    else Except.ok { isDirectory := some false }

/-- Concrete `stat` oracle for the listing witness: also fails on
`/d/b`, so that entry `b` is dropped from the listing. -/
def demoStat : PathStr → Except FsError Stats :=
  fun p => if p = "/d/b".data then Except.error FsError.eacces
    else Except.ok {}

/-- The uniform change event object built by `getFileSystemChangeToken`:
`{type: 'FILE_SYSTEM_CHANGED', eventType, path}`, plus the conditionally
attached `details` snapshot. -/
structure ChangeEvent where
  type : String
  eventType : String
  path : PathStr
  details : Option Stats
  deriving Repr, DecidableEq

/-- The property names of the change event as a JavaScript object: the
three fields of the literal, plus `details` exactly when it was set. -/
def ChangeEvent.fields (e : ChangeEvent) : List String :=
  ["type", "eventType", "path"] ++ (if e.details.isSome then ["details"] else [])

/-- `getFileSystemChangeToken(eventType, filePath, details)`: normalize
the raw detail value first, then duck-type on `details &&
details.isDirectory !== undefined`; when the check passes, normalize
again, attach the path and parsed components and set `event.details`,
otherwise log the diagnostic. -/
def getFileSystemChangeToken (eventType : String) (filePath : PathStr)
    (rawDetails : Option Stats) : ChangeEvent × List LogEntry :=
  let details := normalizeStatsOpt rawDetails
  let event : ChangeEvent :=
    { type := "FILE_SYSTEM_CHANGED", eventType := eventType,
      path := filePath, details := none }
  match details with
  | some d =>
    if d.isDirectory.isSome then
      let d2 := normalizeStats d
      let d3 := assignParse { d2 with path := some filePath } filePath
      ({ event with details := some d3 }, [])
    else (event, [⟨"info", "HEEEEEY", filePath⟩])
  | none => (event, [⟨"info", "HEEEEEY", filePath⟩])

/-- The options object passed to `chokidar.watch` by `startWatching`.
`ignored` holds the source texts of the two ignore regexes. -/
structure WatchOptions where
  awaitWriteFinish : Bool
  persistent : Bool
  followSymlinks : Bool
  usePolling : Bool
  depth : Nat
  ignorePermissionErrors : Bool
  ignored : List String
  ignoreInitial : Bool
  deriving Repr, DecidableEq

/-- The fixed watch policy of `startWatching` (source lines 243-252). -/
def chokidarOptions : WatchOptions :=
  { awaitWriteFinish := true
    persistent := true
    followSymlinks := false
    usePolling := false
    depth := 1
    ignorePermissionErrors := false
    ignored := ["[\\/\\\\]\\.", "rodeo.log"]
    ignoreInitial := true }

/-- The `fileTarget` argument of `startWatching`/`addWatching`: a single
path string, an array of path strings, or any other value (which the
source passes through untouched). -/
inductive FileTarget
  | one (p : PathStr)
  | many (ps : List PathStr)
  | other
  deriving Repr, DecidableEq

/-- The target resolution prologue shared by `startWatching` and
`addWatching`: map `resolveHomeDirectory` over an array target, apply it
to a string target, and leave any other value unchanged. -/
def resolveFileTarget (home : PathStr) : FileTarget → FileTarget
  | FileTarget.one p => FileTarget.one (resolveHomeDirectory home p)
  | FileTarget.many ps => FileTarget.many (ps.map (resolveHomeDirectory home))
  | FileTarget.other => FileTarget.other

/-- A live chokidar watch session: its native handle (identified by the
number drawn when it was created), its accumulated target set, and its
options. -/
structure Watcher where
  id : Nat
  targets : List FileTarget
  options : WatchOptions
  deriving Repr, DecidableEq

/-- Observable lifecycle actions of the registry, in program order:
`chokidar.watch(...)` creating a native handle, `watcher.close()`,
storing a watcher under a requester id, and `watcher.add(target)`. -/
inductive TraceEv
  | create (id : Nat)
  | close (id : Nat)
  | register (rid : String) (id : Nat)
  | addTarget (id : Nat) (t : FileTarget)
  deriving Repr, DecidableEq

/-- The module-level mutable state: the `fileWatchers` object (an
insertion-ordered map from requester id to watcher), a counter supplying
fresh native-handle identities, and the trace of lifecycle actions
performed so far. -/
structure RegState where
  registry : List (String × Watcher)
  nextId : Nat
  trace : List TraceEv
  deriving Repr, DecidableEq

/-- `fileWatchers[k]` (property read; `none` models `undefined`). -/
def objGet : List (String × Watcher) → String → Option Watcher
  | [], _ => none
  | (k', v) :: m, k => if k' = k then some v else objGet m k

/-- `fileWatchers[k] = v`: replace the value in place when the key
exists, otherwise append the new property. -/
def objSet : List (String × Watcher) → String → Watcher → List (String × Watcher)
  | [], k, v => [(k, v)]
  | (k', v') :: m, k, v =>
    if k' = k then (k, v) :: m else (k', v') :: objSet m k v

/-- `delete fileWatchers[k]`. -/
def objDelete : List (String × Watcher) → String → List (String × Watcher)
  | [], _ => []
  | (k', v) :: m, k =>
    if k' = k then objDelete m k else (k', v) :: objDelete m k

/-- `_.each(fileWatchers, watcher => watcher.close())`: close every
registered watcher, in insertion order, without touching the map. -/
def closeAll (s : RegState) : RegState :=
  { s with trace := s.trace ++ s.registry.map (fun kv => TraceEv.close kv.2.id) }

/-- `stopWatching(requesterId)`: with a truthy id, close that id's
watcher (a `TypeError` when the lookup yields `undefined`) and delete the
registry entry; with a falsy or omitted id, close all watchers. -/
def stopWatching (s : RegState) (rid : Option String) : Except JsError RegState :=
  match rid with
  | some id =>
    if id = "" then Except.ok (closeAll s)
    else
      match objGet s.registry id with
      | some w =>
          Except.ok { s with registry := objDelete s.registry id,
                             trace := s.trace ++ [TraceEv.close w.id] }
      | none => Except.error JsError.typeError
  | none => Except.ok (closeAll s)

/-- `startWatching(ipcEmitter, requesterId, fileTarget)`: resolve the
target, create the new chokidar watcher (and attach its listeners), then
— if a watcher is already registered for the id — stop it, and finally
store the new watcher under the id.  The `ipcEmitter` and the per-event
dispatch pipeline carry no registry state and are not modelled. -/
def startWatching (home : PathStr) (s : RegState) (rid : String)
    (t : FileTarget) : RegState :=
  let target := resolveFileTarget home t
  let w : Watcher := { id := s.nextId, targets := [target], options := chokidarOptions }
  let s1 : RegState :=
    { s with nextId := s.nextId + 1, trace := s.trace ++ [TraceEv.create w.id] }
  let s2 : RegState :=
    if (objGet s1.registry rid).isSome then
      match stopWatching s1 (some rid) with
      | Except.ok s' => s'
      | Except.error _ => s1
    else s1
  { s2 with registry := objSet s2.registry rid w,
            trace := s2.trace ++ [TraceEv.register rid w.id] }

/-- `addWatching(requesterId, fileTarget)`: resolve the target and, when
a watcher is registered for the id, extend its watch set via
`watcher.add`; otherwise do nothing. -/
def addWatching (home : PathStr) (s : RegState) (rid : String)
    (t : FileTarget) : RegState :=
  let target := resolveFileTarget home t
  match objGet s.registry rid with
  | some w =>
      { s with registry := objSet s.registry rid { w with targets := w.targets ++ [target] },
               trace := s.trace ++ [TraceEv.addTarget w.id target] }
  | none => s

/-- Index of the first occurrence of an element in a trace (the trace
length when absent). -/
def idxOf (a : TraceEv) : List TraceEv → Nat
  | [] => 0
  | b :: r => if b = a then 0 else idxOf a r + 1

example : posixNormalize ('~' :: '/' :: '/' :: 'a' :: []) = ['~', '/', 'a'] := by decide

example : posixParse "/home/u/a.txt".data =
    { root := "/".data, dir := "/home/u".data, base := "a.txt".data,
      ext := ".txt".data, name := "a".data } := by decide

example : posixParse "/a/b/".data =
    { root := "/".data, dir := "/a".data, base := "b".data,
      ext := [], name := "b".data } := by decide

example : posixParse ".bashrc".data =
    { root := [], dir := [], base := ".bashrc".data,
      ext := [], name := ".bashrc".data } := by decide

example :
    (getFileSystemChangeToken "add" "/a".data (some {})).1.details.isSome = true := by decide

example :
    getWithHomeDirectoryShortName "/home/u".data
      (resolveHomeDirectory "/home/u".data "~/docs".data) = "~/docs".data := by decide

example :
    getWithHomeDirectoryShortName "/home/u".data
      (resolveHomeDirectory "/home/u".data "%HOME%/f".data) = "~/f".data := by decide

example :
    (startWatching [] (startWatching [] ⟨[], 0, []⟩ "r" (FileTarget.one ['/', 't']))
        "r" (FileTarget.one ['/', 't'])).trace =
      [TraceEv.create 0, TraceEv.register "r" 0, TraceEv.create 1,
       TraceEv.close 0, TraceEv.register "r" 1] := by decide

example :
    stopWatching ⟨[("r", ⟨0, [FileTarget.one ['/', 't']], chokidarOptions⟩)], 1, []⟩ none =
      Except.ok ⟨[("r", ⟨0, [FileTarget.one ['/', 't']], chokidarOptions⟩)], 1,
        [TraceEv.close 0]⟩ := rfl

theorem objGet_objSet_self (m : List (String × Watcher)) (k : String) (v : Watcher) :
    objGet (objSet m k v) k = some v := by
  induction m with
  | nil => simp [objSet, objGet]
  | cons kv m ih =>
    obtain ⟨k', v'⟩ := kv
    by_cases h : k' = k
    · simp [objSet, objGet, h]
    · simp [objSet, objGet, h, ih]

theorem objGet_objDelete_self (m : List (String × Watcher)) (k : String) :
    objGet (objDelete m k) k = none := by
  induction m with
  | nil => simp [objDelete, objGet]
  | cons kv m ih =>
    obtain ⟨k', v'⟩ := kv
    by_cases h : k' = k
    · simp [objDelete, h, ih]
    · simp [objDelete, objGet, h, ih]

theorem objGet_objDelete_ne (m : List (String × Watcher)) (k k' : String)
    (h : k' ≠ k) : objGet (objDelete m k) k' = objGet m k' := by
  induction m with
  | nil => simp [objDelete]
  | cons kv m ih =>
    obtain ⟨k1, v1⟩ := kv
    by_cases h1 : k1 = k
    · simp [objDelete, objGet, h1, Ne.symm h, ih]
    · by_cases h2 : k1 = k'
      · simp [objDelete, objGet, h1, h2, h, ih]
      · simp [objDelete, objGet, h1, h2, ih]

theorem objGet_eq_none_iff (m : List (String × Watcher)) (k : String) :
    objGet m k = none ↔ ∀ kv ∈ m, kv.1 ≠ k := by
  induction m with
  | nil => simp [objGet]
  | cons kv m ih =>
    obtain ⟨k', v'⟩ := kv
    by_cases h : k' = k
    · simp [objGet, h]
    · simp [objGet, h, ih]

theorem objSet_of_get_none (m : List (String × Watcher)) (k : String) (v : Watcher)
    (h : objGet m k = none) : objSet m k v = m ++ [(k, v)] := by
  induction m with
  | nil => simp [objSet]
  | cons kv m ih =>
    obtain ⟨k', v'⟩ := kv
    by_cases h1 : k' = k
    · simp [objGet, h1] at h
    · simp [objGet, h1] at h
      simp [objSet, h1, ih h]

theorem countP_key_objSet_objDelete (m : List (String × Watcher)) (k : String)
    (v : Watcher) :
    List.countP (fun kv => kv.1 == k) (objSet (objDelete m k) k v) = 1 := by
  have hnone : objGet (objDelete m k) k = none := objGet_objDelete_self m k
  rw [objSet_of_get_none _ _ _ hnone, List.countP_append]
  have h0 : List.countP (fun kv => kv.1 == k) (objDelete m k) = 0 := by
    rw [List.countP_eq_zero]
    intro kv hkv
    have := (objGet_eq_none_iff (objDelete m k) k).mp hnone kv hkv
    simpa using this
  simp [h0, List.countP_cons]

/-- C8: every watch session created by `startWatching` carries the fixed
policy: depth exactly 1 below each root, symlinks not followed, dotfile
paths and the `rodeo.log` name ignored, write bursts debounced via
`awaitWriteFinish`, and the pre-existing tree suppressed via
`ignoreInitial`. -/
theorem claim8_fixed_watch_policy (home : PathStr) (s : RegState) (rid : String)
    (t : FileTarget) :
    ∃ w : Watcher,
      objGet (startWatching home s rid t).registry rid = some w ∧
      w.options.depth = 1 ∧
      w.options.followSymlinks = false ∧
      w.options.ignored = ["[\\/\\\\]\\.", "rodeo.log"] ∧
      w.options.awaitWriteFinish = true ∧
      w.options.ignoreInitial = true ∧
      w.options = chokidarOptions := by
  refine ⟨⟨s.nextId, [resolveFileTarget home t], chokidarOptions⟩, ?_, rfl, rfl, rfl, rfl, rfl, rfl⟩
  simp only [startWatching]
  exact objGet_objSet_self _ _ _

/-- C10: `stopWatching` with a (truthy) requester id that has no active
registration raises a `TypeError` (the lookup yields `undefined`, whose
`close` is then read), while `addWatching` with an unregistered id is a
silent no-op. -/
theorem claim10_stop_throws_add_noop (s : RegState) (rid : String)
    (h1 : rid ≠ "") (h2 : objGet s.registry rid = none) :
    stopWatching s (some rid) = Except.error JsError.typeError ∧
    ∀ home t, addWatching home s rid t = s := by
  constructor
  · simp [stopWatching, h1, h2]
  · intro home t
    simp [addWatching, h2]

/-- Witness for C10 at the empty registry and requester id `r`. -/
theorem claim10_witness :
    stopWatching ⟨[], 0, []⟩ (some "r") = Except.error JsError.typeError ∧
    ∀ home t, addWatching home ⟨[], 0, []⟩ "r" t = ⟨[], 0, []⟩ :=
  claim10_stop_throws_add_noop ⟨[], 0, []⟩ "r" (by decide) rfl

/-- C1 counterexample: starting twice for the same requester id creates
the replacement native watcher (handle 1) BEFORE the old session
(handle 0) is closed — the trace of the second call is
`create 1, close 0, register`, so the old session is not stopped before
the replacement is created. -/
theorem claim1_counterexample :
    TraceEv.close 0 ∈ (startWatching []
        (startWatching [] ⟨[], 0, []⟩ "r" (FileTarget.one ['/', 't']))
        "r" (FileTarget.one ['/', 't'])).trace ∧
    TraceEv.create 1 ∈ (startWatching []
        (startWatching [] ⟨[], 0, []⟩ "r" (FileTarget.one ['/', 't']))
        "r" (FileTarget.one ['/', 't'])).trace ∧
    ¬ idxOf (TraceEv.close 0) (startWatching []
        (startWatching [] ⟨[], 0, []⟩ "r" (FileTarget.one ['/', 't']))
        "r" (FileTarget.one ['/', 't'])).trace <
      idxOf (TraceEv.create 1) (startWatching []
        (startWatching [] ⟨[], 0, []⟩ "r" (FileTarget.one ['/', 't']))
        "r" (FileTarget.one ['/', 't'])).trace := by decide

/-- C1 (amended): when `startWatching` is called for an identity that
already has a registration, the replacement native watcher is created
first, then the old session is fully stopped (closed and removed), and
only then is the replacement registered — so the old session is stopped
before the replacement is *registered*, though after it is created —
and afterwards exactly one registration exists for that identity. -/
theorem claim1_replace_semantics (home : PathStr) (s : RegState) (rid : String)
    (t : FileTarget) (w : Watcher) (hrid : rid ≠ "")
    (hw : objGet s.registry rid = some w) :
    (startWatching home s rid t).trace =
      s.trace ++ [TraceEv.create s.nextId, TraceEv.close w.id,
        TraceEv.register rid s.nextId] ∧
    List.countP (fun kv => kv.1 == rid) (startWatching home s rid t).registry = 1 ∧
    objGet (startWatching home s rid t).registry rid =
      some ⟨s.nextId, [resolveFileTarget home t], chokidarOptions⟩ := by
  refine ⟨?_, ?_, ?_⟩ <;>
    simp [startWatching, stopWatching, hrid, hw, countP_key_objSet_objDelete,
      objGet_objSet_self]

/-- Witness for C1 at a one-entry registry. -/
theorem claim1_witness :
    (startWatching [] ⟨[("r", ⟨5, [], chokidarOptions⟩)], 7, []⟩ "r" FileTarget.other).trace =
      [] ++ [TraceEv.create 7, TraceEv.close 5, TraceEv.register "r" 7] ∧
    List.countP (fun kv => kv.1 == "r")
      (startWatching [] ⟨[("r", ⟨5, [], chokidarOptions⟩)], 7, []⟩ "r" FileTarget.other).registry = 1 ∧
    objGet (startWatching [] ⟨[("r", ⟨5, [], chokidarOptions⟩)], 7, []⟩ "r" FileTarget.other).registry "r" =
      some ⟨7, [resolveFileTarget [] FileTarget.other], chokidarOptions⟩ :=
  claim1_replace_semantics [] ⟨[("r", ⟨5, [], chokidarOptions⟩)], 7, []⟩ "r"
    FileTarget.other ⟨5, [], chokidarOptions⟩ (by decide) rfl

/-- C5 counterexample: `stopWatching` without a requester id closes the
watcher but does NOT remove the registration — afterwards the registry
still holds the entry for `r`, contradicting the claim that the registry
then holds no registration for any identity. -/
theorem claim5_counterexample :
    stopWatching ⟨[("r", ⟨0, [FileTarget.one ['/', 't']], chokidarOptions⟩)], 1, []⟩ none =
      Except.ok ⟨[("r", ⟨0, [FileTarget.one ['/', 't']], chokidarOptions⟩)], 1,
        [TraceEv.close 0]⟩ ∧
    objGet [("r", ⟨0, [FileTarget.one ['/', 't']], chokidarOptions⟩)] "r" ≠ none :=
  ⟨rfl, by decide⟩

/-- C5 (amended): `stopWatching` with a (truthy) registered identity
closes and removes exactly that identity's registration, leaving every
other identity's registration untouched; `stopWatching` without an
identity closes every registered watcher (in registration order) but
leaves all registrations in the registry. -/
theorem claim5_stop_semantics (s : RegState) (id : String) (w : Watcher)
    (hid : id ≠ "") (hw : objGet s.registry id = some w) :
    (∃ s', stopWatching s (some id) = Except.ok s' ∧
      objGet s'.registry id = none ∧
      (∀ k, k ≠ id → objGet s'.registry k = objGet s.registry k) ∧
      s'.trace = s.trace ++ [TraceEv.close w.id] ∧
      s'.registry = objDelete s.registry id) ∧
    (∃ s2, stopWatching s none = Except.ok s2 ∧
      s2.registry = s.registry ∧
      s2.trace = s.trace ++ s.registry.map (fun kv => TraceEv.close kv.2.id)) := by
  constructor
  · refine ⟨{ s with
        registry := objDelete s.registry id
        trace := s.trace ++ [TraceEv.close w.id] }, ?_, ?_, ?_, rfl, rfl⟩
    · simp [stopWatching, hid, hw]
    · exact objGet_objDelete_self _ _
    · intro k hk
      exact objGet_objDelete_ne _ _ _ hk
  · exact ⟨closeAll s, rfl, rfl, rfl⟩

/-- Witness for C5 at a one-entry registry. -/
theorem claim5_witness :
    (∃ s', stopWatching ⟨[("r", ⟨3, [], chokidarOptions⟩)], 4, []⟩ (some "r") =
        Except.ok s' ∧
      objGet s'.registry "r" = none ∧
      (∀ k, k ≠ "r" → objGet s'.registry k =
        objGet [("r", ⟨3, [], chokidarOptions⟩)] k) ∧
      s'.trace = [] ++ [TraceEv.close 3] ∧
      s'.registry = objDelete [("r", ⟨3, [], chokidarOptions⟩)] "r") ∧
    (∃ s2, stopWatching ⟨[("r", ⟨3, [], chokidarOptions⟩)], 4, []⟩ none =
        Except.ok s2 ∧
      s2.registry = [("r", ⟨3, [], chokidarOptions⟩)] ∧
      s2.trace = [] ++ [("r", (⟨3, [], chokidarOptions⟩ : Watcher))].map
        (fun kv => TraceEv.close kv.2.id)) :=
  claim5_stop_semantics ⟨[("r", ⟨3, [], chokidarOptions⟩)], 4, []⟩ "r"
    ⟨3, [], chokidarOptions⟩ (by decide) rfl

/-- C2 counterexample: a raw detail value that exposes NO `isDirectory`
indicator (the empty stats object) still gets a `details` field attached,
because `getFileSystemChangeToken` normalizes the value before the
duck-typing check and normalization materializes `isDirectory` to
`false`. -/
theorem claim2_counterexample :
    ({} : Stats).isDirectory = none ∧
    (getFileSystemChangeToken "change" ['/', 'a'] (some {})).1.details.isSome = true ∧
    (getFileSystemChangeToken "change" ['/', 'a'] (some {})).2 = [] :=
  ⟨rfl, rfl, rfl⟩

/-- C2 (amended): `translate(kind, path, rawDetail)` attaches `details`
if and only if `rawDetail` is present (non-null) — not only when it
exposes a resolvable `isDirectory` indicator, since normalization runs
before the duck-typing check and materializes the indicator; the
diagnostic is logged exactly when `rawDetail` is absent. -/
theorem claim2_details_iff_present (kind : String) (p : PathStr)
    (raw : Option Stats) :
    ((getFileSystemChangeToken kind p raw).1.details.isSome ↔ raw.isSome) ∧
    (raw = none →
      (getFileSystemChangeToken kind p raw).2 = [⟨"info", "HEEEEEY", p⟩]) ∧
    (∀ d, raw = some d → (getFileSystemChangeToken kind p raw).2 = []) := by
  cases raw with
  | none => simp [getFileSystemChangeToken, normalizeStatsOpt]
  | some d => simp [getFileSystemChangeToken, normalizeStatsOpt, normalizeStats]

/-- Witness for C2 at a present raw detail. -/
theorem claim2_witness :
    (getFileSystemChangeToken "add" ['/', 'a'] (some {})).2 = [] :=
  (claim2_details_iff_present "add" ['/', 'a'] (some {})).2.2 {} rfl

/-- C6 counterexample: the change event produced by the translator has
no field named `eventKind`. -/
theorem claim6_counterexample :
    "eventKind" ∉ ChangeEvent.fields (getFileSystemChangeToken "add" ['/', 'a'] none).1 := by
  decide

/-- C6 (amended): every change event produced by the translator has the
wire shape `{type: 'FILE_SYSTEM_CHANGED', eventType, path, details?}` —
the event kind is carried in a field named `eventType`, not
`eventKind`. -/
theorem claim6_wire_shape (kind : String) (p : PathStr) (raw : Option Stats) :
    (getFileSystemChangeToken kind p raw).1.type = "FILE_SYSTEM_CHANGED" ∧
    (getFileSystemChangeToken kind p raw).1.eventType = kind ∧
    (getFileSystemChangeToken kind p raw).1.path = p ∧
    (raw = none → ChangeEvent.fields (getFileSystemChangeToken kind p raw).1 =
      ["type", "eventType", "path"]) ∧
    (∀ d, raw = some d → ChangeEvent.fields (getFileSystemChangeToken kind p raw).1 =
      ["type", "eventType", "path", "details"]) := by
  cases raw with
  | none => simp [getFileSystemChangeToken, normalizeStatsOpt, ChangeEvent.fields]
  | some d =>
    simp [getFileSystemChangeToken, normalizeStatsOpt, normalizeStats,
      ChangeEvent.fields]

/-- Witness for C6 at an absent raw detail. -/
theorem claim6_witness :
    ChangeEvent.fields (getFileSystemChangeToken "unlink" ['/', 'a'] none).1 =
      ["type", "eventType", "path"] :=
  (claim6_wire_shape "unlink" ['/', 'a'] none).2.2.2.1 rfl

/-- C9 counterexample: for an unreadable config file the function
returns the null result with NO warning logged (the source comments
"deliberately no warning, thus safe"), contradicting the claim that a
warning accompanies the malformed-data case. -/
theorem claim9_counterexample :
    getJSONFileSafeSync (fun _ => none) (fun _ => (none : Option Nat)) ['/', 'c'] =
      (none, []) ∧
    List.countP (fun l => l.level == "warn")
      (getJSONFileSafeSync (fun _ => none) (fun _ => (none : Option Nat)) ['/', 'c']).2 = 0 :=
  ⟨rfl, rfl⟩

/-- C9 (amended): reading persisted structured config never throws: an
unreadable file yields `null` with deliberately no warning, readable but
invalid JSON yields `null` with a warning logged, and valid JSON yields
the parsed value. -/
theorem claim9_json_lenient {α : Type} (readF : PathStr → Option String)
    (parseF : String → Option α) (filePath : PathStr) :
    (readF filePath = none →
      getJSONFileSafeSync readF parseF filePath = (none, [])) ∧
    (∀ c, readF filePath = some c → parseF c = none →
      getJSONFileSafeSync readF parseF filePath =
        (none, [⟨"warn", "is not valid JSON", filePath⟩])) ∧
    (∀ c v, readF filePath = some c → parseF c = some v →
      getJSONFileSafeSync readF parseF filePath = (some v, [])) := by
  refine ⟨fun h => ?_, fun c h hp => ?_, fun c v h hp => ?_⟩
  · simp [getJSONFileSafeSync, h]
  · simp [getJSONFileSafeSync, h, hp]
  · simp [getJSONFileSafeSync, h, hp]

/-- Witness for C9 in the invalid-JSON case. -/
theorem claim9_witness :
    getJSONFileSafeSync (fun _ => some "nonsense") (fun _ => (none : Option Nat)) ['/', 'c'] =
      (none, [⟨"warn", "is not valid JSON", ['/', 'c']⟩]) :=
  (claim9_json_lenient (fun _ => some "nonsense") (fun _ => (none : Option Nat))
    ['/', 'c']).2.1 "nonsense" rfl rfl

/-- C4: `getStats` attempts `lstat` first; when `lstat` succeeds, its
(normalized) result is returned with nothing logged; when `lstat` fails,
a recoverable warning is logged and the `stat` fallback's normalized
result is returned; it fails only when both variants fail. -/
theorem claim4_getStats_fallback (home : PathStr)
    (lstatF statF : PathStr → Except FsError Stats) (filename : PathStr) :
    (∀ st, lstatF (resolveHomeDirectory home filename) = Except.ok st →
      getStats home lstatF statF filename = (Except.ok (normalizeStats st), [])) ∧
    (∀ e st, lstatF (resolveHomeDirectory home filename) = Except.error e →
      statF (resolveHomeDirectory home filename) = Except.ok st →
      getStats home lstatF statF filename = (Except.ok (normalizeStats st),
        [⟨"warn", "lstat failed", resolveHomeDirectory home filename⟩])) ∧
    (∀ e e2, lstatF (resolveHomeDirectory home filename) = Except.error e →
      statF (resolveHomeDirectory home filename) = Except.error e2 →
      getStats home lstatF statF filename = (Except.error e2,
        [⟨"warn", "lstat failed", resolveHomeDirectory home filename⟩])) := by
  refine ⟨fun st h => ?_, fun e st h hs => ?_, fun e e2 h hs => ?_⟩
  · simp [getStats, h]
  · simp [getStats, h, hs]
  · simp [getStats, h, hs]

/-- Witness for C4 in the fallback case: `lstat` fails, `stat`
succeeds. -/
theorem claim4_witness :
    getStats [] (fun _ => Except.error FsError.enoent)
      (fun _ => Except.ok { isDirectory := some true }) ['/', 'a'] =
      (Except.ok (normalizeStats { isDirectory := some true }),
        [⟨"warn", "lstat failed", resolveHomeDirectory [] ['/', 'a']⟩]) :=
  (claim4_getStats_fallback [] (fun _ => Except.error FsError.enoent)
    (fun _ => Except.ok { isDirectory := some true }) ['/', 'a']).2.1
    FsError.enoent { isDirectory := some true } rfl rfl

theorem reduceOption_map_fst {α β γ : Type} (g : α → Option β × γ) (l : List α) :
    ((l.map g).map Prod.fst).reduceOption = l.filterMap (fun a => (g a).1) := by
  simp only [List.reduceOption, List.map_map, List.filterMap_map]
  rfl

theorem length_filterMap_add_countP_none {α β : Type} (f : α → Option β) (l : List α) :
    (l.filterMap f).length + l.countP (fun a => (f a).isNone) = l.length := by
  induction l with
  | nil => rfl
  | cons a l ih =>
    cases hf : f a with
    | none =>
      rw [List.filterMap_cons_none hf, List.countP_cons, List.length_cons]
      simp only [hf, Option.isNone_none]
      simp only [if_pos]
      omega
    | some b =>
      rw [List.filterMap_cons_some hf, List.countP_cons, List.length_cons,
        List.length_cons]
      simp only [hf, Option.isNone_some]
      simp only [Bool.false_eq_true, if_false]
      omega

theorem countP_flatten_map_snd {α : Type} (g : α → Option Stats × List LogEntry)
    (p : LogEntry → Bool) (l : List α)
    (h : ∀ a, ((g a).2.countP p) = if (g a).1.isNone then 1 else 0) :
    (((l.map g).map Prod.snd).flatten).countP p =
      l.countP (fun a => (g a).1.isNone) := by
  induction l with
  | nil => rfl
  | cons a l ih =>
    rw [List.map_cons, List.map_cons, List.flatten_cons, List.countP_append,
      List.countP_cons, h a, ih]
    exact Nat.add_comm _ _

theorem getStats_logs (home : PathStr) (lstatF statF : PathStr → Except FsError Stats)
    (f : PathStr) :
    (getStats home lstatF statF f).2 = [] ∨
    (getStats home lstatF statF f).2 =
      [⟨"warn", "lstat failed", resolveHomeDirectory home f⟩] := by
  rcases hl : lstatF (resolveHomeDirectory home f) with e | st
  · rcases hs : statF (resolveHomeDirectory home f) with e2 | st
    · right
      simp [getStats, hl, hs]
    · right
      simp [getStats, hl, hs]
  · left
    simp [getStats, hl]

theorem getStats_ok_normalized (home : PathStr)
    (lstatF statF : PathStr → Except FsError Stats) (f : PathStr) (st : Stats)
    (h : (getStats home lstatF statF f).1 = Except.ok st) :
    ∃ st0, st = normalizeStats st0 := by
  rcases hl : lstatF (resolveHomeDirectory home f) with e | st1
  · rcases hs : statF (resolveHomeDirectory home f) with e2 | st1
    · simp [getStats, hl, hs] at h
    · simp [getStats, hl, hs] at h
      exact ⟨st1, h.symm⟩
  · simp [getStats, hl] at h
    exact ⟨st1, h.symm⟩

theorem listEntryStep_logs_count (home : PathStr)
    (lstatF statF : PathStr → Except FsError Stats) (dp fn : PathStr) :
    ((listEntryStep home lstatF statF dp fn).2.countP
      (fun l => l.level == "warn" && l.message == "getStats failed")) =
    if (listEntryStep home lstatF statF dp fn).1.isNone then 1 else 0 := by
  rcases hg : getStats home lstatF statF (posixJoin [dp, fn]) with ⟨res, lg⟩
  have hlg := getStats_logs home lstatF statF (posixJoin [dp, fn])
  rw [hg] at hlg
  cases res with
  | ok st =>
    rcases hlg with rfl | rfl <;>
      simp [listEntryStep, hg, List.countP_cons]
  | error e =>
    rcases hlg with rfl | rfl <;>
      simp [listEntryStep, hg, List.countP_cons, List.countP_append]

theorem listEntryStep_populated (home : PathStr)
    (lstatF statF : PathStr → Except FsError Stats) (dp fn : PathStr) (st : Stats)
    (h : (listEntryStep home lstatF statF dp fn).1 = some st) :
    st.populated = true := by
  rcases hg : getStats home lstatF statF (posixJoin [dp, fn]) with ⟨res, lg⟩
  cases res with
  | error e => simp [listEntryStep, hg] at h
  | ok st1 =>
    simp only [listEntryStep, hg] at h
    obtain ⟨st0, hst⟩ := getStats_ok_normalized home lstatF statF (posixJoin [dp, fn]) st1
      (by rw [hg])
    rw [Option.some_inj] at h
    rw [← h, hst]
    simp [assignParse, normalizeStats, Stats.populated]

/-- C3: for a directory whose top-level enumeration succeeds with `N`
entries of which `M` fail per-entry stat resolution, `readDirectory`
succeeds and returns exactly the `N − M` surviving entries in
enumeration order, each fully populated, logging one warning per dropped
entry; it fails exactly when the top-level enumeration itself fails. -/
theorem claim3_listing_partial_failure (home dirPath : PathStr)
    (enumF : PathStr → Except FsError (List PathStr))
    (lstatF statF : PathStr → Except FsError Stats) :
    (∀ e, enumF (resolveHomeDirectory home dirPath) = Except.error e →
      readDirectory home enumF lstatF statF dirPath = (Except.error e, [])) ∧
    (∀ names, enumF (resolveHomeDirectory home dirPath) = Except.ok names →
      ∃ entries logs,
        readDirectory home enumF lstatF statF dirPath = (Except.ok entries, logs) ∧
        entries = names.filterMap (fun fn =>
          (listEntryStep home lstatF statF (resolveHomeDirectory home dirPath) fn).1) ∧
        entries.length + names.countP (fun fn =>
          (listEntryStep home lstatF statF (resolveHomeDirectory home dirPath) fn).1.isNone) =
          names.length ∧
        logs.countP (fun l => l.level == "warn" && l.message == "getStats failed") =
          names.countP (fun fn =>
            (listEntryStep home lstatF statF (resolveHomeDirectory home dirPath) fn).1.isNone) ∧
        ∀ st ∈ entries, st.populated = true) := by
  constructor
  · intro e he
    simp [readDirectory, he]
  · intro names hn
    refine ⟨names.filterMap (fun fn =>
        (listEntryStep home lstatF statF (resolveHomeDirectory home dirPath) fn).1),
      ((names.map (listEntryStep home lstatF statF (resolveHomeDirectory home dirPath))).map
        Prod.snd).flatten, ?_, rfl, ?_, ?_, ?_⟩
    · simp only [readDirectory, hn]
      rw [reduceOption_map_fst]
    · exact length_filterMap_add_countP_none _ _
    · exact countP_flatten_map_snd _ _ _
        (fun a => listEntryStep_logs_count home lstatF statF _ a)
    · intro st hst
      rw [List.mem_filterMap] at hst
      obtain ⟨fn, _, hfn⟩ := hst
      exact listEntryStep_populated home lstatF statF _ fn st hfn

/-- Witness for C3: a three-entry directory where the stat of entry `b`
fails, so two entries survive and one drop warning is logged. -/
theorem claim3_witness :
    ∃ entries logs,
      readDirectory [] demoEnum demoLstat demoStat "/d".data = (Except.ok entries, logs) ∧
      entries = [['a'], ['b'], ['c']].filterMap (fun fn =>
        (listEntryStep [] demoLstat demoStat (resolveHomeDirectory [] "/d".data) fn).1) ∧
      entries.length + List.countP (fun fn =>
        (listEntryStep [] demoLstat demoStat (resolveHomeDirectory [] "/d".data) fn).1.isNone)
        [['a'], ['b'], ['c']] = ([['a'], ['b'], ['c']] : List PathStr).length ∧
      logs.countP (fun l => l.level == "warn" && l.message == "getStats failed") =
        List.countP (fun fn =>
          (listEntryStep [] demoLstat demoStat (resolveHomeDirectory [] "/d".data) fn).1.isNone)
          [['a'], ['b'], ['c']] ∧
      ∀ st ∈ entries, st.populated = true :=
  (claim3_listing_partial_failure [] "/d".data demoEnum demoLstat demoStat).2
    [['a'], ['b'], ['c']] rfl

theorem splitOnChar_ne_nil (c : Char) (l : PathStr) : splitOnChar c l ≠ [] := by
  induction l with
  | nil => simp [splitOnChar]
  | cons x xs ih =>
    by_cases h : x = c
    · simp [splitOnChar, h]
    · simp only [splitOnChar, h, if_false]
      cases hs : splitOnChar c xs with
      | nil => simp
      | cons s ss => simp

theorem intercalateChar_splitOnChar (c : Char) (l : PathStr) :
    intercalateChar c (splitOnChar c l) = l := by
  induction l with
  | nil => rfl
  | cons x xs ih =>
    by_cases h : x = c
    · subst h
      rw [show splitOnChar x (x :: xs) = [] :: splitOnChar x xs by simp [splitOnChar]]
      cases hs : splitOnChar x xs with
      | nil => exact absurd hs (splitOnChar_ne_nil x xs)
      | cons s ss =>
        rw [hs] at ih
        simp [intercalateChar, ih]
    · simp only [splitOnChar, h, if_false]
      cases hs : splitOnChar c xs with
      | nil => exact absurd hs (splitOnChar_ne_nil c xs)
      | cons s ss =>
        rw [hs] at ih
        cases ss with
        | nil =>
          simp [intercalateChar] at ih ⊢
          rw [ih]
        | cons s2 ss2 =>
          simp [intercalateChar] at ih ⊢
          exact ih

theorem splitOnChar_append_sep (c : Char) (l : PathStr) :
    splitOnChar c (l ++ [c]) = splitOnChar c l ++ [[]] := by
  induction l with
  | nil => simp [splitOnChar]
  | cons x xs ih =>
    by_cases h : x = c
    · simp [splitOnChar, h, ih]
    · cases hs : splitOnChar c xs with
      | nil => exact absurd hs (splitOnChar_ne_nil c xs)
      | cons s ss => simp [splitOnChar, h, ih, hs]

theorem nil_mem_splitOnChar_of_endsWith (c : Char) (l : PathStr)
    (h : l.getLast? = some c) : [] ∈ splitOnChar c l := by
  have hne : l ≠ [] := by
    rintro rfl
    simp at h
  have hl : l.getLast hne = c := by
    have heq := List.getLast?_eq_getLast l hne
    rw [heq] at h
    exact Option.some.inj h
  have hdecomp : l.dropLast ++ [c] = l := by
    rw [← hl]
    exact List.dropLast_append_getLast hne
  rw [← hdecomp, splitOnChar_append_sep]
  exact List.mem_append_right _ (by simp)

theorem foldl_normStep_clean (isAbs : Bool) (segs : List PathStr)
    (h : ∀ s ∈ segs, s ≠ ['.'] ∧ s ≠ ['.', '.']) :
    ∀ acc, segs.foldl (normStep isAbs) acc = acc ++ segs := by
  induction segs with
  | nil =>
    intro acc
    simp
  | cons s segs ih =>
    intro acc
    have hs := h s (by simp)
    have hstep : normStep isAbs acc s = acc ++ [s] := by
      simp [normStep, hs.1, hs.2]
    rw [List.foldl_cons, hstep, ih (fun a ha => h a (by simp [ha])) (acc ++ [s])]
    simp

theorem intercalateChar_ne_nil (c : Char) (L : List PathStr) (hL : L ≠ [])
    (h1 : ∀ s ∈ L, s ≠ []) : intercalateChar c L ≠ [] := by
  cases L with
  | nil => exact absurd rfl hL
  | cons s ss =>
    cases ss with
    | nil => exact h1 s (by simp)
    | cons s2 ss2 =>
      have := h1 s (by simp)
      simp [intercalateChar]

theorem posixNormalize_clean (p : PathStr) (hp : ¬ p = [])
    (hhead : p.head? ≠ some '/') (hlast : p.getLast? ≠ some '/')
    (hne : ∀ s ∈ (splitOnChar '/' p).filter (fun s => decide (s ≠ [])), s ≠ [])
    (hL : (splitOnChar '/' p).filter (fun s => decide (s ≠ [])) ≠ [])
    (hclean : ∀ s ∈ (splitOnChar '/' p).filter (fun s => decide (s ≠ [])),
      s ≠ ['.'] ∧ s ≠ ['.', '.']) :
    posixNormalize p =
      intercalateChar '/' ((splitOnChar '/' p).filter (fun s => decide (s ≠ []))) := by
  have hA : decide (p.head? = some '/') = false := decide_eq_false hhead
  have hT : decide (p.getLast? = some '/') = false := decide_eq_false hlast
  have hfoldl := foldl_normStep_clean false
    ((splitOnChar '/' p).filter (fun s => decide (s ≠ []))) hclean []
  have hcore : intercalateChar '/'
      ((splitOnChar '/' p).filter (fun s => decide (s ≠ []))) ≠ [] :=
    intercalateChar_ne_nil '/' _ hL hne
  have hd1 : decide (intercalateChar '/'
      ((splitOnChar '/' p).filter (fun s => decide (s ≠ []))) = []) = false :=
    decide_eq_false hcore
  have hd2 : decide (intercalateChar '/'
      ((splitOnChar '/' p).filter (fun s => decide (s ≠ []))) ≠ []) = true :=
    decide_eq_true hcore
  rw [posixNormalize, if_neg hp]
  simp only [hA, hT, hfoldl, List.nil_append, hd1, hd2, Bool.not_false,
    Bool.and_true, Bool.true_and, Bool.and_false, Bool.false_and,
    Bool.false_eq_true, if_false, if_true]

theorem posixNormalize_tilde (rest : PathStr)
    (h2 : ∀ seg ∈ splitOnChar '/' rest, seg ≠ [] ∧ seg ≠ ['.'] ∧ seg ≠ ['.', '.']) :
    posixNormalize ('~' :: '/' :: '/' :: rest) = '~' :: '/' :: rest := by
  have hrne : rest ≠ [] := by
    rintro rfl
    exact absurd rfl (h2 [] (by simp [splitOnChar])).1
  have hsplit : splitOnChar '/' ('~' :: '/' :: '/' :: rest) =
      ['~'] :: [] :: splitOnChar '/' rest := by
    simp [splitOnChar]
  have hfilter : (splitOnChar '/' rest).filter (fun s => decide (s ≠ [])) =
      splitOnChar '/' rest :=
    List.filter_eq_self.mpr (fun a ha => by simpa using (h2 a ha).1)
  have hfilterall : (splitOnChar '/' ('~' :: '/' :: '/' :: rest)).filter
      (fun s => decide (s ≠ [])) = ['~'] :: splitOnChar '/' rest := by
    rw [hsplit]
    simp
    intro a ha
    exact (h2 a ha).1
  have hlast : ('~' :: '/' :: '/' :: rest).getLast? = rest.getLast? := by
    cases rest with
    | nil => exact absurd rfl hrne
    | cons r rs => simp [List.getLast?_cons_cons]
  have hnotslash : rest.getLast? ≠ some '/' := by
    intro hc
    exact absurd rfl (h2 [] (nil_mem_splitOnChar_of_endsWith '/' rest hc)).1
  have hlastall : ('~' :: '/' :: '/' :: rest).getLast? ≠ some '/' := by
    rw [hlast]
    exact hnotslash
  have hne : ∀ s ∈ (splitOnChar '/' ('~' :: '/' :: '/' :: rest)).filter
      (fun s => decide (s ≠ [])), s ≠ [] := by
    rw [hfilterall]
    intro s hs
    rcases List.mem_cons.mp hs with rfl | hs
    · simp
    · exact (h2 s hs).1
  have hL : (splitOnChar '/' ('~' :: '/' :: '/' :: rest)).filter
      (fun s => decide (s ≠ [])) ≠ [] := by
    rw [hfilterall]
    simp
  have hclean : ∀ s ∈ (splitOnChar '/' ('~' :: '/' :: '/' :: rest)).filter
      (fun s => decide (s ≠ [])), s ≠ ['.'] ∧ s ≠ ['.', '.'] := by
    rw [hfilterall]
    intro s hs
    rcases List.mem_cons.mp hs with rfl | hs
    · exact ⟨by simp, by simp⟩
    · exact ⟨(h2 s hs).2.1, (h2 s hs).2.2⟩
  have hinter : intercalateChar '/' (['~'] :: splitOnChar '/' rest) =
      '~' :: '/' :: rest := by
    cases hs : splitOnChar '/' rest with
    | nil => exact absurd hs (splitOnChar_ne_nil '/' rest)
    | cons s ss =>
      have hrec : intercalateChar '/' (s :: ss) = rest := by
        rw [← hs]
        exact intercalateChar_splitOnChar '/' rest
      simp [intercalateChar, hrec]
  rw [posixNormalize_clean _ (by simp) (by simp) hlastall hne hL hclean]
  rw [hfilterall]
  exact hinter

/-- C7 counterexample: `%HOME%/f` begins with a home-placeholder token,
yet the resolve/shorten round trip yields `~/f`, not `%HOME%/f` (the
shortened form always uses the tilde token). -/
theorem claim7_counterexample :
    List.isPrefixOf tokHOME "%HOME%/f".data = true ∧
    getWithHomeDirectoryShortName "/home/u".data
      (resolveHomeDirectory "/home/u".data "%HOME%/f".data) ≠ "%HOME%/f".data :=
  ⟨by decide, by decide⟩

/-- C7 (amended): the `shortenHome ∘ resolveHome` round trip restores
the input for paths of the form `~/rest` whose remainder is a clean
relative path (no empty, `.` or `..` segments) and whose resolved form
does not itself start with `%HOME%`; paths beginning with `%HOME%`
round-trip to the equivalent `~`-form instead; and any path not
beginning with a home-placeholder token passes through `resolveHome`
unchanged. -/
theorem claim7_roundtrip (home rest : PathStr)
    (h1 : List.isPrefixOf tokHOME (home ++ '/' :: rest) = false)
    (h2 : ∀ seg ∈ splitOnChar '/' rest, seg ≠ [] ∧ seg ≠ ['.'] ∧ seg ≠ ['.', '.']) :
    getWithHomeDirectoryShortName home
      (resolveHomeDirectory home ('~' :: '/' :: rest)) = '~' :: '/' :: rest ∧
    ∀ p : PathStr, List.isPrefixOf ['~'] p = false →
      List.isPrefixOf tokHOME p = false → resolveHomeDirectory home p = p := by
  constructor
  · have hguard : (List.isPrefixOf ['~'] ('~' :: '/' :: rest) ||
        List.isPrefixOf tokHOME ('~' :: '/' :: rest)) = true := by
      simp [List.isPrefixOf]
    have hinner : replaceStart ['~'] home ('~' :: '/' :: rest) = home ++ '/' :: rest := by
      rw [replaceStart, if_pos (by simp [List.isPrefixOf])]
      rfl
    have houter : replaceStart tokHOME home (home ++ '/' :: rest) = home ++ '/' :: rest := by
      rw [replaceStart, if_neg (by simp [h1])]
    have hpre : List.isPrefixOf home (home ++ '/' :: rest) = true := by
      rw [List.isPrefixOf_iff_prefix]
      exact List.prefix_append _ _
    rw [resolveHomeDirectory, if_pos hguard, hinner, houter,
      getWithHomeDirectoryShortName, if_pos hpre, List.drop_left]
    have hjoin : posixJoin [['~'], '/' :: rest] =
        posixNormalize ('~' :: '/' :: '/' :: rest) := by
      rw [posixJoin]
      simp [intercalateChar]
    rw [hjoin]
    exact posixNormalize_tilde rest h2
  · intro p hp1 hp2
    rw [resolveHomeDirectory, if_neg (by simp [hp1, hp2])]

/-- Witness for C7 at home `/home/u` and path `~/docs`. -/
theorem claim7_witness :
    getWithHomeDirectoryShortName "/home/u".data
      (resolveHomeDirectory "/home/u".data ('~' :: '/' :: "docs".data)) =
      '~' :: '/' :: "docs".data ∧
    ∀ p : PathStr, List.isPrefixOf ['~'] p = false →
      List.isPrefixOf tokHOME p = false →
      resolveHomeDirectory "/home/u".data p = p :=
  claim7_roundtrip "/home/u".data "docs".data (by decide) (by decide)
